import Mathlib

/-!
Shallow embedding of `program_10.py`, a streamflow-statistics script.

Modelling conventions:
* A calendar date is a `Date` record ordered lexicographically by
  (year, month, day); the pandas `DatetimeIndex` comparisons (`<`, `>`)
  and label slicing `df[start:end]` reduce to this order.
* A float discharge cell is `FlowVal := Option ℚ`: `none` models NaN
  (a missing value), `some q` a real reading.  Exact rationals replace
  IEEE floats; none of the verified properties depends on rounding.
* A float produced by a metric is an `RVal`: a number, NaN, `+inf` or
  `-inf` (the last two arise from numpy float division by zero).
* pandas reductions (`mean`, `sum`, `median`, `min`) skip NaN cells,
  per their default `skipna=True`; comparisons against NaN are `False`.
* A raised Python exception (`ZeroDivisionError` in `CalcTqmean`) is
  the `none` of an `Option` result.
-/

/-- A calendar date (year, month, day). -/
structure Date where
  year : Int
  month : Nat
  day : Nat
deriving DecidableEq, Repr

/-- Strict lexicographic order on dates, as the pandas `DatetimeIndex`
comparisons use. -/
def dateLt (a b : Date) : Bool :=
  a.year < b.year ||
    (a.year = b.year &&
      (a.month < b.month || (a.month = b.month && a.day < b.day)))

/-- Non-strict date order. -/
def dateLe (a b : Date) : Bool :=
  dateLt a b || a = b

/-- A float cell of the `Discharge` column: `none` is NaN/missing. -/
abbrev FlowVal : Type := Option ℚ

/-- A float value returned by a metric function: numpy/pandas floats
include NaN and the two infinities (from float division by zero). -/
inductive RVal where
  | num : ℚ → RVal
  | nan : RVal
  | inf : RVal
  | ninf : RVal
deriving DecidableEq, Repr

/-- IEEE `<` on a float cell versus a float cell: any comparison with
NaN is `False` (this is how `Qvalues > x` behaves on NaN entries). -/
def fltGt (v w : FlowVal) : Bool :=
  match v, w with
  | some a, some b => b < a
  | _, _ => false

/-- IEEE `≤` between two metric results; NaN compares `False` with
everything. -/
def rle (v w : RVal) : Bool :=
  match v, w with
  | .num a, .num b => a ≤ b
  | .num _, .inf => true
  | .ninf, _ => (w ≠ .nan)
  | .inf, .inf => true
  | _, _ => false

/-- numpy float division `n / d`: ordinary division when `d ≠ 0`,
otherwise `±inf` or NaN depending on the sign of `n`. -/
def fdiv (n d : ℚ) : RVal :=
  if d ≠ 0 then .num (n / d)
  else if 0 < n then .inf
  else if n < 0 then .ninf
  else .nan

/-- The valid (non-NaN) values of a float column, in order. -/
def valsOf (xs : List FlowVal) : List ℚ :=
  xs.filterMap (fun x => x)

/-- pandas `Series.sum()`: sum of the column with NaN skipped
(`skipna=True` default); an all-NaN or empty column sums to `0`. -/
def seriesSum (xs : List FlowVal) : ℚ :=
  (valsOf xs).sum

/-- pandas `Series.mean()`: mean over the non-NaN cells, NaN when no
valid cell exists. -/
def seriesMean (xs : List FlowVal) : FlowVal :=
  let vs := valsOf xs
  if vs.length = 0 then none else some (vs.sum / vs.length)

/-- One row of the loaded table: the `Date` index and the `Discharge`
cell.  (The `agency_cd`, `site_no` and `Quality` columns are opaque
strings carried along unchanged; none of the verified operations reads
them, so they are omitted from the row.) -/
structure Row where
  date : Date
  discharge : FlowVal
deriving DecidableEq, Repr

/-- `DataDF["Discharge"].isna().sum()`: the number of NaN discharge
cells of a table. -/
def missingCount (df : List Row) : Nat :=
  df.countP (fun r => r.discharge = none)

/-- `ClipData(DataDF, startDate, endDate)` from `program_10.py`:

* `MissingValues = DataDF["Discharge"].isna().sum()`;
* `b = DataDF.index < startDate`, `a = DataDF.index > endDate`;
* `DataDF = DataDF[startDate:endDate]` — label slicing on the sorted
  `DatetimeIndex` keeps exactly the rows with date in `[start, end]`;
* returns the clipped table and `MissingValues + b.sum() + a.sum()`. -/
def ClipData (df : List Row) (startDate endDate : Date) : List Row × Nat :=
  let missing := missingCount df
  let b := df.countP (fun r => dateLt r.date startDate)
  let a := df.countP (fun r => dateLt endDate r.date)
  let clipped := df.filter
    (fun r => dateLe startDate r.date && dateLe r.date endDate)
  (clipped, missing + b + a)

/-- `Qvalues.abs()` cellwise: NaN stays NaN. -/
def fltAbs (v : FlowVal) : FlowVal :=
  v.map (fun q => |q|)

/-- `Qvalues.diff()`: first entry NaN, then `Q[i] - Q[i-1]`, NaN when
either operand is NaN. -/
def seriesDiff (Qvalues : List FlowVal) : List FlowVal :=
  match Qvalues with
  | [] => []
  | _ :: _ =>
    none :: Qvalues.zipWith
      (fun x y =>
        match x, y with
        | some a, some b => some (b - a)
        | _, _ => none)
      Qvalues.tail

/-- `CalcTqmean(Qvalues)` from `program_10.py`:
`a = Qvalues.index[Qvalues > Qvalues.mean()]; Tqmean = len(a)/len(Qvalues)`.
`len(a)/len(Qvalues)` is Python integer division of two `int`s, which
raises `ZeroDivisionError` (modelled as `none`) when the series is
empty; otherwise it yields a true-ratio float. -/
def CalcTqmean (Qvalues : List FlowVal) : Option RVal :=
  let a := Qvalues.countP (fun v => fltGt v (seriesMean Qvalues))
  if Qvalues.length = 0 then none
  else some (.num ((a : ℚ) / (Qvalues.length : ℚ)))

/-- `CalcRBindex(Qvalues)` from `program_10.py`:
`a = Qvalues.diff(); RBindex = a.abs().sum()/Qvalues.sum()` — both sums
skip NaN; the quotient is numpy float division. -/
def CalcRBindex (Qvalues : List FlowVal) : RVal :=
  let a := seriesDiff Qvalues
  fdiv (seriesSum (a.map fltAbs)) (seriesSum Qvalues)

/-- `Qvalues.rolling(window=7).mean()`: entry `i` is the mean of the
window `Q[i-6..i]` when `i ≥ 6` and all seven cells are non-NaN
(`min_periods` defaults to the window size), else NaN. -/
def rollingMean7 (Qvalues : List FlowVal) : List FlowVal :=
  (List.range Qvalues.length).map (fun i =>
    if 6 ≤ i then
      let w := (List.range 7).map (fun j => Qvalues.getD (i - 6 + j) none)
      if w.all (fun x => x.isSome) then some (seriesSum w / 7) else none
    else none)

/-- `np.min` applied to a pandas Series dispatches to `Series.min()`,
which skips NaN and returns NaN for an all-NaN/empty series. -/
def seriesMin (xs : List FlowVal) : RVal :=
  match valsOf xs with
  | [] => .nan
  | v :: vs => .num (vs.foldl min v)

/-- `max` of a pandas Series with NaN skipped (`Series.max()`), used to
state the `7Q ≤ max(S)` bound. -/
def seriesMax (xs : List FlowVal) : RVal :=
  match valsOf xs with
  | [] => .nan
  | v :: vs => .num (vs.foldl max v)

/-- `Calc7Q(Qvalues)` from `program_10.py`:
`a = Qvalues.rolling(window=7).mean(); val7Q = np.min(a)`. -/
def Calc7Q (Qvalues : List FlowVal) : RVal :=
  seriesMin (rollingMean7 Qvalues)

/-- `Qvalues.median()`: NaN cells are skipped; the median of the sorted
valid values is the middle one (odd count) or the average of the two
middle ones (even count); NaN when no valid value exists. -/
def seriesMedian (xs : List FlowVal) : FlowVal :=
  let vs := List.insertionSort (· ≤ ·) (valsOf xs)
  if vs.length = 0 then none
  else if vs.length % 2 = 1 then some (vs.getD (vs.length / 2) 0)
  else some ((vs.getD (vs.length / 2 - 1) 0 + vs.getD (vs.length / 2) 0) / 2)

/-- `CalcExceed3TimesMedian(Qvalues)` from `program_10.py`:
`a = Qvalues.median(); b = Qvalues.index[Qvalues > 3*a]; median3x = len(b)`.
`3 * NaN` is NaN, and comparisons with NaN are `False`. -/
def CalcExceed3TimesMedian (Qvalues : List FlowVal) : Nat :=
  let a := seriesMedian Qvalues
  Qvalues.countP (fun v => fltGt v (a.map (fun m => 3 * m)))

/-- The water-year bucket label that `resample('AS-OCT')` assigns to a
date in `GetAnnualStatistics`: annual bins anchored at October 1 and
labelled by the bin start, so a date on or after October 1 falls in the
bin starting that year, an earlier date in the bin starting the
previous year. -/
def waterYearLabel (d : Date) : Date :=
  if 10 ≤ d.month then ⟨d.year, 10, 1⟩ else ⟨d.year - 1, 10, 1⟩

/-- The rows that `resample('AS-OCT')` places in the bucket labelled
`lbl`. -/
def annualBucketRows (df : List Row) (lbl : Date) : List Row :=
  df.filter (fun r => waterYearLabel r.date = lbl)

/-- One row of `MoDataDF`: the month-start date index and the four
monthly metric columns produced by `GetMonthlyStatistics`. -/
structure MoRow where
  date : Date
  meanFlow : FlowVal
  coeffVar : FlowVal
  tqmean : FlowVal
  rbindex : FlowVal
deriving DecidableEq, Repr

/-- One row of the `GetMonthlyAverages` output: the calendar-month
group key and the four averaged metric columns. -/
structure MoAvgRow where
  month : Nat
  meanFlow : FlowVal
  coeffVar : FlowVal
  tqmean : FlowVal
  rbindex : FlowVal
deriving DecidableEq, Repr

/-- The group keys of `groupby(by=[MoDataDF.index.month])`: the distinct
month numbers present, in ascending order (pandas sorts group keys by
default). -/
def monthKeys (l : List Nat) : List Nat :=
  List.insertionSort (· ≤ ·) l.dedup

/-- `GetMonthlyAverages(MoDataDF)` from `program_10.py`:
`MoDataDF.groupby(by=[MoDataDF.index.month]).mean()` — one output row
per distinct month number present, in ascending key order, holding the
NaN-skipping column means over that month's rows. -/
def GetMonthlyAverages (mo : List MoRow) : List MoAvgRow :=
  (monthKeys (mo.map (fun r => r.date.month))).map (fun m =>
    let g := mo.filter (fun r => r.date.month = m)
    { month := m
      meanFlow := seriesMean (g.map (fun r => r.meanFlow))
      coeffVar := seriesMean (g.map (fun r => r.coeffVar))
      tqmean := seriesMean (g.map (fun r => r.tqmean))
      rbindex := seriesMean (g.map (fun r => r.rbindex)) })

/-- A heap of table objects, used to model Python object identity:
an address names a `DataFrame`, and pandas operations that build new
objects allocate fresh cells. -/
abbrev Heap := List (List Row)

/-- Dereference a table address. -/
def readH (h : Heap) (a : Nat) : List Row :=
  h.getD a []

/-- Allocate a fresh table object, returning the new heap and the fresh
address. -/
def allocH (h : Heap) (t : List Row) : Heap × Nat :=
  (h ++ [t], h.length)

/-- `ClipData` at the object level: the caller passes the address of its
`DataDF`.  Every operation in the body — `isna().sum()`, the two index
comparisons, and the slice `DataDF[startDate:endDate]` — reads the
argument and builds a new object; the local name `DataDF` is then
rebound to the freshly allocated slice.  Returns the new heap, the
address of the clipped table, and the missing count. -/
def ClipDataH (h : Heap) (addr : Nat) (startDate endDate : Date) :
    Heap × Nat × Nat :=
  let df := readH h addr
  let missing := missingCount df
  let b := df.countP (fun r => dateLt r.date startDate)
  let a := df.countP (fun r => dateLt endDate r.date)
  let clipped := df.filter
    (fun r => dateLe startDate r.date && dateLe r.date endDate)
  let h2 := (allocH h clipped).1
  (h2, (allocH h clipped).2, missing + b + a)

theorem dateLt_irrefl (a : Date) : dateLt a a = false := by
  simp [dateLt]

theorem dateLt_trans {a b c : Date} (h1 : dateLt a b = true)
    (h2 : dateLt b c = true) : dateLt a c = true := by
  rcases a with ⟨y1, m1, d1⟩; rcases b with ⟨y2, m2, d2⟩
  rcases c with ⟨y3, m3, d3⟩
  simp [dateLt] at h1 h2 ⊢
  omega

theorem dateLe_trans {a b c : Date} (h1 : dateLe a b = true)
    (h2 : dateLe b c = true) : dateLe a c = true := by
  rcases a with ⟨y1, m1, d1⟩; rcases b with ⟨y2, m2, d2⟩
  rcases c with ⟨y3, m3, d3⟩
  simp [dateLe, dateLt, Date.mk.injEq] at h1 h2 ⊢
  omega

theorem not_dateLt_of_dateLe {a b : Date} (h : dateLe a b = true) :
    dateLt b a = false := by
  rcases a with ⟨y1, m1, d1⟩; rcases b with ⟨y2, m2, d2⟩
  simp [dateLe, dateLt, Date.mk.injEq] at h ⊢
  omega

theorem dateLe_of_not_dateLt {a b : Date} (h : dateLt a b = false) :
    dateLe b a = true := by
  rcases a with ⟨y1, m1, d1⟩; rcases b with ⟨y2, m2, d2⟩
  simp [dateLe, dateLt, Date.mk.injEq] at h ⊢
  omega

theorem dateLt_of_lt_of_le {a b c : Date} (h1 : dateLt a b = true)
    (h2 : dateLe b c = true) : dateLt a c = true := by
  rcases a with ⟨y1, m1, d1⟩; rcases b with ⟨y2, m2, d2⟩
  rcases c with ⟨y3, m3, d3⟩
  simp [dateLe, dateLt, Date.mk.injEq] at h1 h2 ⊢
  omega

theorem countP_or_add_and {α : Type} (l : List α) (p q : α → Bool) :
    l.countP (fun x => p x || q x) + l.countP (fun x => p x && q x) =
      l.countP p + l.countP q := by
  induction l with
  | nil => simp
  | cons a t ih =>
    simp only [List.countP_cons]
    cases hp : p a <;> cases hq : q a <;> simp [hp, hq] <;> omega

/-- C1 (amended).  For `start ≤ end`, `ClipData` returns the subset of
rows dated within `[start, end]` together with the original missing
count plus the number of excluded rows — each excluded row counted
once, the two exclusion reasons being mutually exclusive.  For
`start > end` the returned table is empty, but the missing count adds
`#(date < start) + #(date > end)`, which counts every original row once
and the rows dated strictly between `end` and `start` twice. -/
theorem clipData_range_and_count (df : List Row) (s e : Date) :
    (dateLe s e = true →
      (ClipData df s e).1 =
        df.filter (fun r => dateLe s r.date && dateLe r.date e) ∧
      (ClipData df s e).2 = missingCount df +
        df.countP (fun r => dateLt r.date s || dateLt e r.date)) ∧
    (dateLt e s = true →
      (ClipData df s e).1 = [] ∧
      (ClipData df s e).2 = missingCount df + df.length +
        df.countP (fun r => dateLt e r.date && dateLt r.date s)) := by
  constructor
  · intro hse
    refine ⟨rfl, ?_⟩
    have hdisj :
        df.countP (fun r => dateLt r.date s && dateLt e r.date) = 0 := by
      rw [List.countP_eq_zero]
      intro r _ hr
      rw [Bool.and_eq_true] at hr
      have hes : dateLt e s = true := dateLt_trans hr.2 hr.1
      rw [not_dateLt_of_dateLe hse] at hes
      exact Bool.false_ne_true hes
    have hsum := countP_or_add_and df (fun r => dateLt r.date s)
      (fun r => dateLt e r.date)
    show missingCount df + df.countP _ + df.countP _ = _
    omega
  · intro hes
    constructor
    · show df.filter _ = []
      rw [List.filter_eq_nil_iff]
      intro r _ hr
      rw [Bool.and_eq_true] at hr
      have h1 : dateLe s e = true := dateLe_trans hr.1 hr.2
      have h2 := not_dateLt_of_dateLe h1
      rw [h2] at hes
      exact Bool.false_ne_true hes
    · have hsum := countP_or_add_and df (fun r => dateLt r.date s)
        (fun r => dateLt e r.date)
      have hall :
          df.countP (fun r => dateLt r.date s || dateLt e r.date) =
            df.length := by
        rw [List.countP_eq_length]
        intro r _
        rw [Bool.or_eq_true]
        by_cases h : dateLt r.date s = true
        · exact Or.inl h
        · refine Or.inr ?_
          have hle := dateLe_of_not_dateLt (Bool.of_not_eq_true h)
          exact dateLt_of_lt_of_le hes hle
      have hswap :
          df.countP (fun r => dateLt e r.date && dateLt r.date s) =
            df.countP (fun r => dateLt r.date s && dateLt e r.date) := by
        apply List.countP_congr
        intro r _
        cases dateLt e r.date <;> cases dateLt r.date s <;> rfl
      show missingCount df + df.countP _ + df.countP _ = _
      omega

/-- C1 witness: both branches of `clipData_range_and_count` applied at
concrete inputs. -/
theorem clipData_range_and_count_witness :
    ((ClipData [⟨⟨2000, 1, 20⟩, some 3⟩, ⟨⟨2002, 3, 4⟩, none⟩]
        ⟨2000, 1, 1⟩ ⟨2000, 12, 31⟩).1 =
      ([⟨⟨2000, 1, 20⟩, some 3⟩, ⟨⟨2002, 3, 4⟩, none⟩] : List Row).filter
        (fun r => dateLe ⟨2000, 1, 1⟩ r.date &&
          dateLe r.date ⟨2000, 12, 31⟩) ∧
     (ClipData [⟨⟨2000, 1, 20⟩, some 3⟩, ⟨⟨2002, 3, 4⟩, none⟩]
        ⟨2000, 1, 1⟩ ⟨2000, 12, 31⟩).2 =
      missingCount [⟨⟨2000, 1, 20⟩, some 3⟩, ⟨⟨2002, 3, 4⟩, none⟩] +
        ([⟨⟨2000, 1, 20⟩, some 3⟩, ⟨⟨2002, 3, 4⟩, none⟩] : List Row).countP
          (fun r => dateLt r.date ⟨2000, 1, 1⟩ ||
            dateLt (⟨2000, 12, 31⟩ : Date) r.date)) ∧
    ((ClipData [⟨⟨2000, 1, 5⟩, some 1⟩] ⟨2000, 1, 10⟩ ⟨2000, 1, 1⟩).1 =
      [] ∧
     (ClipData [⟨⟨2000, 1, 5⟩, some 1⟩] ⟨2000, 1, 10⟩ ⟨2000, 1, 1⟩).2 =
      missingCount [⟨⟨2000, 1, 5⟩, some 1⟩] + 1 +
        ([⟨⟨2000, 1, 5⟩, some 1⟩] : List Row).countP
          (fun r => dateLt (⟨2000, 1, 1⟩ : Date) r.date &&
            dateLt r.date ⟨2000, 1, 10⟩)) :=
  ⟨(clipData_range_and_count _ _ _).1 (by decide),
   (clipData_range_and_count _ _ _).2 (by decide)⟩

/-- C1 counterexample: with `start > end` and one row dated strictly
between `end` and `start`, the table comes back empty as the claim
says, but the returned count is the original missing count plus 2, not
plus the single excluded row. -/
theorem clipData_edge_double_count :
    (ClipData [⟨⟨2000, 1, 5⟩, some 1⟩] ⟨2000, 1, 10⟩ ⟨2000, 1, 1⟩).1 =
      [] ∧
    (ClipData [⟨⟨2000, 1, 5⟩, some 1⟩] ⟨2000, 1, 10⟩ ⟨2000, 1, 1⟩).2 ≠
      missingCount [⟨⟨2000, 1, 5⟩, some 1⟩] + 1 := by
  decide

/-- C9 (amended).  Re-clipping to the same range returns the same
table, but the second call's missing count is just the number of
missing values inside the clipped table: the excluded-row component of
the first call's count is not reproduced. -/
theorem clipData_table_idempotent (df : List Row) (s e : Date) :
    (ClipData (ClipData df s e).1 s e).1 = (ClipData df s e).1 ∧
    (ClipData (ClipData df s e).1 s e).2 =
      missingCount (ClipData df s e).1 := by
  constructor
  · show ((df.filter _).filter _) = df.filter _
    rw [List.filter_filter]
    simp [Bool.and_self]
  · have hb : (ClipData df s e).1.countP
        (fun r => dateLt r.date s) = 0 := by
      rw [List.countP_eq_zero]
      intro r hr
      have hmem := List.mem_filter.mp hr
      rw [Bool.and_eq_true] at hmem
      rw [not_dateLt_of_dateLe hmem.2.1]
      exact Bool.false_ne_true
    have ha : (ClipData df s e).1.countP
        (fun r => dateLt e r.date) = 0 := by
      rw [List.countP_eq_zero]
      intro r hr
      have hmem := List.mem_filter.mp hr
      rw [Bool.and_eq_true] at hmem
      rw [not_dateLt_of_dateLe hmem.2.2]
      exact Bool.false_ne_true
    show missingCount _ + (ClipData df s e).1.countP _ +
      (ClipData df s e).1.countP _ = _
    omega

/-- C9 counterexample: one non-missing row dated before the window.
The first clip returns count 1 (the excluded row); clipping the clipped
(empty) table again returns count 0, so the pair is not reproduced. -/
theorem clipData_not_idempotent :
    ClipData (ClipData [⟨⟨2000, 1, 1⟩, some 1⟩]
        ⟨2001, 1, 1⟩ ⟨2001, 12, 31⟩).1 ⟨2001, 1, 1⟩ ⟨2001, 12, 31⟩ ≠
      ClipData [⟨⟨2000, 1, 1⟩, some 1⟩] ⟨2001, 1, 1⟩ ⟨2001, 12, 31⟩ := by
  decide

/-- C10.  At the object level, `ClipData` leaves the caller's table
untouched: after the call the caller's address still holds the same
rows with the same missing count, the returned table lives at a fresh
address, and the returned contents and count are those of `ClipData`. -/
theorem clipDataH_no_mutation (h : Heap) (addr : Nat) (s e : Date)
    (hv : addr < h.length) :
    readH (ClipDataH h addr s e).1 addr = readH h addr ∧
    missingCount (readH (ClipDataH h addr s e).1 addr) =
      missingCount (readH h addr) ∧
    (ClipDataH h addr s e).2.1 ≠ addr ∧
    readH (ClipDataH h addr s e).1 (ClipDataH h addr s e).2.1 =
      (ClipData (readH h addr) s e).1 ∧
    (ClipDataH h addr s e).2.2 = (ClipData (readH h addr) s e).2 := by
  have hro : readH (ClipDataH h addr s e).1 addr = readH h addr := by
    show readH (h ++ [_]) addr = readH h addr
    unfold readH
    exact List.getD_append _ _ _ _ hv
  refine ⟨hro, by rw [hro], ?_, ?_, rfl⟩
  · show h.length ≠ addr
    omega
  · show readH (h ++ [_]) h.length = _
    unfold readH
    rw [List.getD_append_right _ _ _ _ (Nat.le_refl _)]
    simp [ClipData]

/-- C10 witness: `clipDataH_no_mutation` at a concrete one-cell heap. -/
theorem clipDataH_no_mutation_witness :
    readH (ClipDataH [[⟨⟨2000, 1, 1⟩, some 1⟩]] 0
        ⟨2001, 1, 1⟩ ⟨2001, 12, 31⟩).1 0 =
      readH [[⟨⟨2000, 1, 1⟩, some 1⟩]] 0 ∧
    missingCount (readH (ClipDataH [[⟨⟨2000, 1, 1⟩, some 1⟩]] 0
        ⟨2001, 1, 1⟩ ⟨2001, 12, 31⟩).1 0) =
      missingCount (readH [[⟨⟨2000, 1, 1⟩, some 1⟩]] 0) ∧
    (ClipDataH [[⟨⟨2000, 1, 1⟩, some 1⟩]] 0
        ⟨2001, 1, 1⟩ ⟨2001, 12, 31⟩).2.1 ≠ 0 ∧
    readH (ClipDataH [[⟨⟨2000, 1, 1⟩, some 1⟩]] 0
        ⟨2001, 1, 1⟩ ⟨2001, 12, 31⟩).1
      (ClipDataH [[⟨⟨2000, 1, 1⟩, some 1⟩]] 0
        ⟨2001, 1, 1⟩ ⟨2001, 12, 31⟩).2.1 =
      (ClipData (readH [[⟨⟨2000, 1, 1⟩, some 1⟩]] 0)
        ⟨2001, 1, 1⟩ ⟨2001, 12, 31⟩).1 ∧
    (ClipDataH [[⟨⟨2000, 1, 1⟩, some 1⟩]] 0
        ⟨2001, 1, 1⟩ ⟨2001, 12, 31⟩).2.2 =
      (ClipData (readH [[⟨⟨2000, 1, 1⟩, some 1⟩]] 0)
        ⟨2001, 1, 1⟩ ⟨2001, 12, 31⟩).2 :=
  clipDataH_no_mutation _ 0 _ _ (by decide)

theorem valsOf_cons_some (v : ℚ) (t : List FlowVal) :
    valsOf (some v :: t) = v :: valsOf t := rfl

theorem valsOf_cons_none (t : List FlowVal) :
    valsOf (none :: t) = valsOf t := rfl

theorem valsOf_length {S : List FlowVal} (hm : ∀ x ∈ S, x ≠ none) :
    (valsOf S).length = S.length := by
  induction S with
  | nil => rfl
  | cons x t ih =>
    have hx : x ≠ none := hm x (List.mem_cons_self x t)
    have ht : ∀ y ∈ t, y ≠ none := fun y hy => hm y (List.mem_cons_of_mem _ hy)
    rcases x with _ | v
    · exact absurd rfl hx
    · rw [valsOf_cons_some, List.length_cons, List.length_cons, ih ht]

theorem countP_fltGt (S : List FlowVal) (hm : ∀ x ∈ S, x ≠ none) (c : ℚ) :
    S.countP (fun v => fltGt v (some c)) =
      (valsOf S).countP (fun v => c < v) := by
  induction S with
  | nil => rfl
  | cons x t ih =>
    have hx : x ≠ none := hm x (List.mem_cons_self x t)
    have ht : ∀ y ∈ t, y ≠ none := fun y hy => hm y (List.mem_cons_of_mem _ hy)
    rcases x with _ | v
    · exact absurd rfl hx
    · rw [valsOf_cons_some, List.countP_cons, List.countP_cons, ih ht]
      simp [fltGt]

/-- C2.  For a non-empty series with no missing values, `CalcTqmean`
returns the fraction of observations strictly above the arithmetic
mean; this fraction lies in `[0, 1]` and vanishes exactly when every
value is at most the mean. -/
theorem calcTqmean_fraction (S : List FlowVal) (hne : S ≠ [])
    (hm : ∀ x ∈ S, x ≠ none) :
    ∃ q : ℚ, CalcTqmean S = some (.num q) ∧
      q = ((valsOf S).countP
          (fun v => (valsOf S).sum / ((valsOf S).length : ℚ) < v) : ℚ) /
        (S.length : ℚ) ∧
      0 ≤ q ∧ q ≤ 1 ∧
      (q = 0 ↔
        ∀ v ∈ valsOf S, v ≤ (valsOf S).sum / ((valsOf S).length : ℚ)) := by
  have hn : S.length ≠ 0 := by
    simpa [List.length_eq_zero] using hne
  have hvl := valsOf_length hm
  have hmean : seriesMean S =
      some ((valsOf S).sum / ((valsOf S).length : ℚ)) := by
    simp only [seriesMean]
    rw [if_neg (by rw [hvl]; exact hn)]
  have hform : CalcTqmean S =
      some (.num ((S.countP (fun v => fltGt v (seriesMean S)) : ℚ) /
        (S.length : ℚ))) := by
    simp only [CalcTqmean]
    rw [if_neg hn]
  have hcount : S.countP (fun v => fltGt v (seriesMean S)) =
      (valsOf S).countP
        (fun v => (valsOf S).sum / ((valsOf S).length : ℚ) < v) := by
    rw [hmean]
    exact countP_fltGt S hm _
  have hnQ : (0 : ℚ) < (S.length : ℚ) := by
    exact_mod_cast Nat.pos_of_ne_zero hn
  refine ⟨(S.countP (fun v => fltGt v (seriesMean S)) : ℚ) /
    (S.length : ℚ), hform, by rw [hcount], ?_, ?_, ?_⟩
  · exact div_nonneg (Nat.cast_nonneg _) (Nat.cast_nonneg _)
  · rw [div_le_one hnQ]
    exact_mod_cast List.countP_le_length (fun v => fltGt v (seriesMean S))
  · rw [div_eq_zero_iff]
    constructor
    · intro hq
      rcases hq with hq | hq
      · have hc0 : S.countP (fun v => fltGt v (seriesMean S)) = 0 := by
          exact_mod_cast hq
        rw [hcount] at hc0
        rw [List.countP_eq_zero] at hc0
        intro v hv
        have := hc0 v hv
        simpa using this
      · exact absurd hq (ne_of_gt hnQ)
    · intro hall
      left
      have hc0 : S.countP (fun v => fltGt v (seriesMean S)) = 0 := by
        rw [hcount, List.countP_eq_zero]
        intro v hv
        simpa using hall v hv
      exact_mod_cast hc0

/-- C2 witness: `calcTqmean_fraction` on `[1, 2, 3]`. -/
theorem calcTqmean_fraction_witness :
    ∃ q : ℚ, CalcTqmean [some 1, some 2, some 3] = some (.num q) ∧
      q = ((valsOf [some 1, some 2, some 3]).countP
          (fun v => (valsOf [some 1, some 2, some 3]).sum /
            ((valsOf [some 1, some 2, some 3]).length : ℚ) < v) : ℚ) /
        (([some 1, some 2, some 3] : List FlowVal).length : ℚ) ∧
      0 ≤ q ∧ q ≤ 1 ∧
      (q = 0 ↔ ∀ v ∈ valsOf [some 1, some 2, some 3],
        v ≤ (valsOf [some 1, some 2, some 3]).sum /
          ((valsOf [some 1, some 2, some 3]).length : ℚ)) :=
  calcTqmean_fraction [some 1, some 2, some 3] (by decide) (by decide)

/-- C3 counterexample: on the empty series `CalcTqmean` does not return
NaN — `len(a)/len(Qvalues)` raises `ZeroDivisionError` (the `none`
result). -/
theorem calcTqmean_empty_not_nan :
    CalcTqmean ([] : List FlowVal) ≠ some RVal.nan := by
  decide

/-- C3 (amended).  On the empty series `CalcTqmean` raises
`ZeroDivisionError`: both operands of `len(a)/len(Qvalues)` are Python
`int`s and the denominator is zero, so no value is returned. -/
theorem calcTqmean_empty_raises :
    CalcTqmean ([] : List FlowVal) = none := rfl

/-- C6.  With no missing values, `CalcExceed3TimesMedian` counts the
observations strictly greater than three times the series median, and
on the empty series it deterministically returns 0 (the NaN median
matches nothing). -/
theorem calcExceed_median_count (S : List FlowVal)
    (hm : ∀ x ∈ S, x ≠ none) :
    (S ≠ [] → ∃ m : ℚ, seriesMedian S = some m ∧
      CalcExceed3TimesMedian S =
        (valsOf S).countP (fun v => 3 * m < v)) ∧
    CalcExceed3TimesMedian ([] : List FlowVal) = 0 := by
  constructor
  · intro hne
    have hn : S.length ≠ 0 := by
      simpa [List.length_eq_zero] using hne
    have hvl := valsOf_length hm
    have hlen : (List.insertionSort (· ≤ ·) (valsOf S)).length ≠ 0 := by
      rw [(List.perm_insertionSort (· ≤ ·) (valsOf S)).length_eq, hvl]
      exact hn
    have hmed : ∃ m : ℚ, seriesMedian S = some m := by
      simp only [seriesMedian]
      rw [if_neg hlen]
      by_cases hp :
          (List.insertionSort (· ≤ ·) (valsOf S)).length % 2 = 1
      · rw [if_pos hp]
        exact ⟨_, rfl⟩
      · rw [if_neg hp]
        exact ⟨_, rfl⟩
    obtain ⟨m, hmedEq⟩ := hmed
    refine ⟨m, hmedEq, ?_⟩
    show S.countP (fun v => fltGt v ((seriesMedian S).map (fun x => 3 * x))) = _
    rw [hmedEq]
    exact countP_fltGt S hm (3 * m)
  · rfl

/-- C6 witness: `calcExceed_median_count` on `[1, 2, 10]` (median 2,
one value above 6). -/
theorem calcExceed_median_count_witness :
    (∃ m : ℚ, seriesMedian [some 1, some 2, some 10] = some m ∧
      CalcExceed3TimesMedian [some 1, some 2, some 10] =
        (valsOf [some 1, some 2, some 10]).countP
          (fun v => 3 * m < v)) ∧
    CalcExceed3TimesMedian ([] : List FlowVal) = 0 :=
  ⟨(calcExceed_median_count [some 1, some 2, some 10] (by decide)).1
      (by decide),
   (calcExceed_median_count [some 1, some 2, some 10] (by decide)).2⟩

/-- C7.  Water-year buckets of `resample('AS-OCT')` start October 1 and
are labelled by the start date: a 1999-10-01 record lands in the bucket
labelled 1999-10-01, a 1999-09-30 record in the prior bucket labelled
1998-10-01, and every bucket label is an October 1. -/
theorem waterYear_bucketing :
    annualBucketRows
        [⟨⟨1999, 10, 1⟩, some 5⟩, ⟨⟨1999, 9, 30⟩, some 4⟩]
        ⟨1999, 10, 1⟩ = [⟨⟨1999, 10, 1⟩, some 5⟩] ∧
    annualBucketRows
        [⟨⟨1999, 10, 1⟩, some 5⟩, ⟨⟨1999, 9, 30⟩, some 4⟩]
        ⟨1998, 10, 1⟩ = [⟨⟨1999, 9, 30⟩, some 4⟩] ∧
    ∀ d : Date,
      (waterYearLabel d).month = 10 ∧ (waterYearLabel d).day = 1 := by
  refine ⟨by decide, by decide, fun d => ?_⟩
  unfold waterYearLabel
  by_cases h : 10 ≤ d.month
  · rw [if_pos h]
    exact ⟨rfl, rfl⟩
  · rw [if_neg h]
    exact ⟨rfl, rfl⟩

theorem mem_valsOf {a : ℚ} {S : List FlowVal} :
    a ∈ valsOf S ↔ some a ∈ S := by
  simp [valsOf, List.mem_filterMap]

theorem sum_nonneg_zero_iff {l : List ℚ} (h : ∀ x ∈ l, 0 ≤ x) :
    l.sum = 0 ↔ ∀ x ∈ l, x = 0 := by
  induction l with
  | nil => simp
  | cons a t ih =>
    have ha := h a (List.mem_cons_self a t)
    have ht : ∀ x ∈ t, 0 ≤ x := fun x hx => h x (List.mem_cons_of_mem _ hx)
    have hts : 0 ≤ t.sum := List.sum_nonneg ht
    simp only [List.sum_cons, List.mem_cons]
    constructor
    · intro h0
      have ha0 : a = 0 := by linarith
      have ht0 : t.sum = 0 := by linarith
      intro x hx
      rcases hx with rfl | hx
      · exact ha0
      · exact (ih ht).mp ht0 x hx
    · intro h0
      rw [h0 a (Or.inl rfl), (ih ht).mpr fun x hx => h0 x (Or.inr hx)]
      ring

theorem absdiff_vals (S : List FlowVal) (hm : ∀ x ∈ S, x ≠ none) :
    valsOf ((seriesDiff S).map fltAbs) =
      List.zipWith (fun a b => |b - a|) (valsOf S) (valsOf S).tail := by
  induction S with
  | nil => rfl
  | cons x t ih =>
    rcases t with _ | ⟨y, u⟩
    · rcases x with _ | a <;> rfl
    · have hx : x ≠ none := hm x (List.mem_cons_self _ _)
      have hy : y ≠ none :=
        hm y (List.mem_cons_of_mem _ (List.mem_cons_self _ _))
      rcases x with _ | a
      · exact absurd rfl hx
      rcases y with _ | b
      · exact absurd rfl hy
      have ht : ∀ z ∈ some b :: u, z ≠ none :=
        fun z hz => hm z (List.mem_cons_of_mem _ hz)
      have ihr := ih ht
      simp only [seriesDiff, List.tail_cons, List.map_cons, fltAbs,
        Option.map_none', Option.map_some', valsOf_cons_none,
        valsOf_cons_some, List.zipWith_cons_cons] at ihr ⊢
      rw [ihr]

theorem zip_absdiff_nonneg (l m : List ℚ) :
    ∀ z ∈ List.zipWith (fun a b => |b - a|) l m, 0 ≤ z := by
  induction l generalizing m with
  | nil => intro z hz; simp at hz
  | cons a t ih =>
    intro z hz
    rcases m with _ | ⟨b, u⟩
    · simp at hz
    · rw [List.zipWith_cons_cons, List.mem_cons] at hz
      rcases hz with rfl | hz
      · exact abs_nonneg _
      · exact ih u z hz

theorem zip_absdiff_zero_iff (l : List ℚ) :
    (∀ z ∈ List.zipWith (fun a b => |b - a|) l l.tail, z = 0) ↔
      ∀ x ∈ l, ∀ y ∈ l, x = y := by
  induction l with
  | nil => simp
  | cons a t ih =>
    rcases t with _ | ⟨b, u⟩
    · simp
    · rw [List.tail_cons, List.zipWith_cons_cons]
      rw [List.tail_cons] at ih
      constructor
      · intro hz
        have hab : a = b := by
          have h0 := hz _ (List.mem_cons_self _ _)
          have := abs_eq_zero.mp h0
          linarith
        have hrest := ih.mp fun z hzm =>
          hz z (List.mem_cons_of_mem _ hzm)
        intro x hx y hy
        rw [List.mem_cons] at hx hy
        have hx' : x ∈ b :: u := by
          rcases hx with rfl | hx
          · rw [hab]; exact List.mem_cons_self _ _
          · exact hx
        have hy' : y ∈ b :: u := by
          rcases hy with rfl | hy
          · rw [hab]; exact List.mem_cons_self _ _
          · exact hy
        exact hrest x hx' y hy'
      · intro hall z hz
        rw [List.mem_cons] at hz
        rcases hz with rfl | hz
        · have : a = b := hall a (List.mem_cons_self _ _)
            b (List.mem_cons_of_mem _ (List.mem_cons_self _ _))
          rw [this]
          simp
        · exact (ih.mpr fun x hx y hy =>
            hall x (List.mem_cons_of_mem _ hx)
              y (List.mem_cons_of_mem _ hy)) z hz

theorem cells_eq_iff_vals_eq (S : List FlowVal)
    (hm : ∀ x ∈ S, x ≠ none) :
    (∀ x ∈ S, ∀ y ∈ S, x = y) ↔
      ∀ x ∈ valsOf S, ∀ y ∈ valsOf S, x = y := by
  constructor
  · intro h x hx y hy
    have := h _ (mem_valsOf.mp hx) _ (mem_valsOf.mp hy)
    exact Option.some_injective _ this
  · intro h x hx y hy
    rcases x with _ | a
    · exact absurd rfl (hm _ hx)
    rcases y with _ | b
    · exact absurd rfl (hm _ hy)
    rw [h a (mem_valsOf.mpr hx) b (mem_valsOf.mpr hy)]

/-- C4 (amended).  For a series with no missing values and positive
total flow, the R-B index is a non-negative number, and it is zero
exactly when the series is constant (which covers the one-element
case). -/
theorem calcRBindex_spec (S : List FlowVal) (hm : ∀ x ∈ S, x ≠ none)
    (hsum : 0 < seriesSum S) :
    ∃ q : ℚ, CalcRBindex S = .num q ∧ 0 ≤ q ∧
      (q = 0 ↔ ∀ x ∈ S, ∀ y ∈ S, x = y) := by
  have hd : seriesSum S ≠ 0 := ne_of_gt hsum
  have hform : CalcRBindex S =
      .num (seriesSum ((seriesDiff S).map fltAbs) / seriesSum S) := by
    simp only [CalcRBindex, fdiv]
    rw [if_pos hd]
  have hnn : ∀ z ∈ valsOf ((seriesDiff S).map fltAbs), 0 ≤ z := by
    rw [absdiff_vals S hm]
    exact zip_absdiff_nonneg _ _
  refine ⟨seriesSum ((seriesDiff S).map fltAbs) / seriesSum S, hform,
    div_nonneg (List.sum_nonneg hnn) (le_of_lt hsum), ?_⟩
  rw [div_eq_zero_iff]
  constructor
  · intro hq
    rcases hq with hq | hq
    · have hall := (sum_nonneg_zero_iff hnn).mp hq
      rw [absdiff_vals S hm] at hall
      rw [cells_eq_iff_vals_eq S hm]
      exact (zip_absdiff_zero_iff _).mp hall
    · exact absurd hq hd
  · intro hconst
    left
    apply (sum_nonneg_zero_iff hnn).mpr
    rw [absdiff_vals S hm]
    exact (zip_absdiff_zero_iff _).mpr
      ((cells_eq_iff_vals_eq S hm).mp hconst)

/-- C4 witness: `calcRBindex_spec` on the constant series `[1, 1]`. -/
theorem calcRBindex_spec_witness :
    ∃ q : ℚ, CalcRBindex [some 1, some 1] = .num q ∧ 0 ≤ q ∧
      (q = 0 ↔ ∀ x ∈ ([some 1, some 1] : List FlowVal),
        ∀ y ∈ ([some 1, some 1] : List FlowVal), x = y) :=
  calcRBindex_spec [some 1, some 1] (by decide)
    (by norm_num [seriesSum, valsOf, List.filterMap_cons])

/-- C4 counterexample: the two-point series `[1, -2]` has no missing
values, yet its R-B index is `-3`, which is not `≥ 0`. -/
theorem calcRBindex_negative :
    CalcRBindex [some 1, some (-2)] = RVal.num (-3) ∧
    rle (RVal.num 0) (CalcRBindex [some 1, some (-2)]) = false := by
  have hval : CalcRBindex [some 1, some (-2)] = RVal.num (-3) := by
    have h1 : seriesSum ((seriesDiff
        [some 1, some (-2)]).map fltAbs) = 3 := by
      norm_num [seriesDiff, fltAbs, seriesSum, valsOf, List.filterMap_cons]
    have h2 : seriesSum [some 1, some (-2)] = -1 := by
      norm_num [seriesSum, valsOf, List.filterMap_cons]
    rw [CalcRBindex, h1, h2, fdiv]
    norm_num
  rw [hval]
  constructor
  · rfl
  · simp [rle]

theorem foldl_min_le {l : List ℚ} {a : ℚ} : l.foldl min a ≤ a := by
  induction l generalizing a with
  | nil => exact le_refl a
  | cons x t ih => exact le_trans ih (min_le_left a x)

theorem le_foldl_max {l : List ℚ} {a : ℚ} : a ≤ l.foldl max a := by
  induction l generalizing a with
  | nil => exact le_refl a
  | cons x t ih => exact le_trans (le_max_left a x) ih

theorem mem_le_foldl_max {l : List ℚ} {a x : ℚ} (hx : x ∈ l) :
    x ≤ l.foldl max a := by
  induction l generalizing a with
  | nil => cases hx
  | cons y t ih =>
    rcases List.mem_cons.mp hx with rfl | hx'
    · exact le_trans (le_max_right a x) le_foldl_max
    · exact ih hx'

/-- C5 (amended).  For a series with no missing values and at least 7
observations, `Calc7Q` is a number, `max(S)` is a number, and the bound
`7Q ≤ max(S)` holds (both as rationals and as the float comparison). -/
theorem calc7Q_le_max (S : List FlowVal) (hm : ∀ x ∈ S, x ≠ none)
    (hlen : 7 ≤ S.length) :
    ∃ q M : ℚ, Calc7Q S = .num q ∧ seriesMax S = .num M ∧ q ≤ M ∧
      rle (Calc7Q S) (seriesMax S) = true := by
  have hvl := valsOf_length hm
  have hSne : valsOf S ≠ [] := by
    intro hnil
    rw [hnil] at hvl
    simp at hvl
    omega
  obtain ⟨v0, vrest, hv⟩ := List.exists_cons_of_ne_nil hSne
  have hmax : seriesMax S = .num (vrest.foldl max v0) := by
    unfold seriesMax
    rw [hv]
  have hMbound : ∀ u ∈ valsOf S, u ≤ vrest.foldl max v0 := by
    intro u hu
    rw [hv] at hu
    rcases List.mem_cons.mp hu with rfl | hu'
    · exact le_foldl_max
    · exact mem_le_foldl_max hu'
  have hwin : ∀ u ∈ valsOf (rollingMean7 S), u ≤ vrest.foldl max v0 := by
    intro u hu
    have hmem : some u ∈ rollingMean7 S := mem_valsOf.mp hu
    rw [rollingMean7] at hmem
    obtain ⟨i, hi, hfi⟩ := List.mem_map.mp hmem
    rw [List.mem_range] at hi
    by_cases h6 : 6 ≤ i
    · rw [if_pos h6] at hfi
      by_cases hall : ((List.range 7).map
          (fun j => S.getD (i - 6 + j) none)).all (fun x => x.isSome)
      · rw [if_pos hall] at hfi
        have hu' : seriesSum ((List.range 7).map
            (fun j => S.getD (i - 6 + j) none)) / 7 = u :=
          Option.some_injective _ hfi
        have hwvals : ∀ x ∈ valsOf ((List.range 7).map
            (fun j => S.getD (i - 6 + j) none)),
            x ≤ vrest.foldl max v0 := by
          intro x hx
          obtain ⟨j, hj, hgj⟩ := List.mem_map.mp (mem_valsOf.mp hx)
          rw [List.mem_range] at hj
          have hidx : i - 6 + j < S.length := by omega
          rw [List.getD_eq_getElem _ _ hidx] at hgj
          have hmem2 : some x ∈ S := by
            rw [← hgj]
            exact List.getElem_mem hidx
          exact hMbound x (mem_valsOf.mpr hmem2)
        have hwnn : ∀ x ∈ (List.range 7).map
            (fun j => S.getD (i - 6 + j) none), x ≠ none := by
          intro x hx
          have := List.all_eq_true.mp hall x hx
          exact Option.isSome_iff_ne_none.mp (by simpa using this)
        have hvwl : (valsOf ((List.range 7).map
            (fun j => S.getD (i - 6 + j) none))).length = 7 := by
          rw [valsOf_length hwnn]
          simp
        have hsum := List.sum_le_card_nsmul
          (valsOf ((List.range 7).map (fun j => S.getD (i - 6 + j) none)))
          (vrest.foldl max v0) hwvals
        rw [hvwl] at hsum
        rw [← hu']
        rw [div_le_iff₀ (by norm_num : (0 : ℚ) < 7)]
        calc seriesSum ((List.range 7).map
              (fun j => S.getD (i - 6 + j) none)) ≤
            7 • vrest.foldl max v0 := hsum
          _ = vrest.foldl max v0 * 7 := by
              rw [nsmul_eq_mul]
              ring_nf
      · rw [if_neg hall] at hfi
        exact absurd hfi (by simp)
    · rw [if_neg h6] at hfi
      exact absurd hfi (by simp)
  have h6lt : 6 < S.length := by omega
  have hallsix : ((List.range 7).map
      (fun j => S.getD (6 - 6 + j) none)).all (fun x => x.isSome) = true := by
    rw [List.all_eq_true]
    intro x hx
    obtain ⟨j, hj, hgj⟩ := List.mem_map.mp hx
    rw [List.mem_range] at hj
    have hidx : 6 - 6 + j < S.length := by omega
    rw [List.getD_eq_getElem _ _ hidx] at hgj
    have : x ≠ none := by
      rw [← hgj]
      exact hm _ (List.getElem_mem hidx)
    simpa using Option.isSome_iff_ne_none.mpr this
  have hentry : some (seriesSum ((List.range 7).map
      (fun j => S.getD (6 - 6 + j) none)) / 7) ∈ rollingMean7 S := by
    rw [rollingMean7]
    apply List.mem_map.mpr
    refine ⟨6, List.mem_range.mpr h6lt, ?_⟩
    rw [if_pos (le_refl 6)]
    show (if _ = true then _ else none) = _
    rw [if_pos hallsix]
  have hvne : valsOf (rollingMean7 S) ≠ [] := by
    intro h0
    have hin := mem_valsOf.mpr hentry
    rw [h0] at hin
    exact List.not_mem_nil _ hin
  obtain ⟨q0, qs, hq⟩ := List.exists_cons_of_ne_nil hvne
  have hmin : Calc7Q S = .num (qs.foldl min q0) := by
    unfold Calc7Q seriesMin
    rw [hq]
  have hq0 : q0 ∈ valsOf (rollingMean7 S) := by
    rw [hq]
    exact List.mem_cons_self _ _
  have hle : qs.foldl min q0 ≤ vrest.foldl max v0 :=
    le_trans foldl_min_le (hwin q0 hq0)
  refine ⟨qs.foldl min q0, vrest.foldl max v0, hmin, hmax, hle, ?_⟩
  rw [hmin, hmax]
  simpa [rle] using hle

/-- C5 witness: `calc7Q_le_max` on seven days of constant flow 1. -/
theorem calc7Q_le_max_witness :
    ∃ q M : ℚ,
      Calc7Q [some 1, some 1, some 1, some 1, some 1, some 1, some 1] =
        .num q ∧
      seriesMax [some 1, some 1, some 1, some 1, some 1, some 1, some 1] =
        .num M ∧
      q ≤ M ∧
      rle (Calc7Q [some 1, some 1, some 1, some 1, some 1, some 1, some 1])
        (seriesMax
          [some 1, some 1, some 1, some 1, some 1, some 1, some 1]) =
        true :=
  calc7Q_le_max [some 1, some 1, some 1, some 1, some 1, some 1, some 1]
    (by decide) (by decide)

/-- C5 counterexample: a one-element series has no complete 7-day
window, so `Calc7Q` is NaN and the claimed bound `7Q ≤ max(S)` is
false (NaN compares false). -/
theorem calc7Q_short_series :
    Calc7Q [some 5] = RVal.nan ∧
    rle (Calc7Q [some 5]) (seriesMax [some 5]) = false := by
  decide

theorem mem_monthList {m : ℕ} :
    m ∈ ([1, 2, 3, 4, 5, 6, 7, 8, 9, 10, 11, 12] : List ℕ) ↔
      1 ≤ m ∧ m ≤ 12 := by
  simp [List.mem_cons]
  omega

theorem mem_monthKeys {m : ℕ} {l : List ℕ} :
    m ∈ monthKeys l ↔ m ∈ l := by
  rw [monthKeys, (List.perm_insertionSort _ _).mem_iff, List.mem_dedup]

/-- C8 (amended).  When every calendar month 1–12 occurs among the
input rows (and row months are genuine months), `GetMonthlyAverages`
returns exactly 12 rows, keyed 1 through 12 in ascending order, each
holding the NaN-skipping mean of every metric over that month's
rows. -/
theorem getMonthlyAverages_twelve (mo : List MoRow)
    (hin : ∀ r ∈ mo, 1 ≤ r.date.month ∧ r.date.month ≤ 12)
    (hall : ∀ m ∈ ([1, 2, 3, 4, 5, 6, 7, 8, 9, 10, 11, 12] : List ℕ),
      ∃ r ∈ mo, r.date.month = m) :
    (GetMonthlyAverages mo).map (fun r => r.month) =
      [1, 2, 3, 4, 5, 6, 7, 8, 9, 10, 11, 12] ∧
    (GetMonthlyAverages mo).length = 12 ∧
    ∀ row ∈ GetMonthlyAverages mo,
      row.meanFlow = seriesMean ((mo.filter
        (fun r => r.date.month = row.month)).map (fun r => r.meanFlow)) ∧
      row.coeffVar = seriesMean ((mo.filter
        (fun r => r.date.month = row.month)).map (fun r => r.coeffVar)) ∧
      row.tqmean = seriesMean ((mo.filter
        (fun r => r.date.month = row.month)).map (fun r => r.tqmean)) ∧
      row.rbindex = seriesMean ((mo.filter
        (fun r => r.date.month = row.month)).map (fun r => r.rbindex)) := by
  have hnd1 : (monthKeys (mo.map (fun r => r.date.month))).Nodup :=
    ((List.perm_insertionSort _ _).nodup_iff).mpr (List.nodup_dedup _)
  have hnd2 : ([1, 2, 3, 4, 5, 6, 7, 8, 9, 10, 11, 12] : List ℕ).Nodup := by
    decide
  have hperm : List.Perm (monthKeys (mo.map (fun r => r.date.month)))
      [1, 2, 3, 4, 5, 6, 7, 8, 9, 10, 11, 12] := by
    apply (List.perm_ext_iff_of_nodup hnd1 hnd2).mpr
    intro m
    rw [mem_monthKeys, List.mem_map, mem_monthList]
    constructor
    · intro hmem
      obtain ⟨r, hr, rfl⟩ := hmem
      exact hin r hr
    · intro hb
      obtain ⟨r, hr, hrm⟩ := hall m (mem_monthList.mpr hb)
      exact ⟨r, hr, hrm⟩
  have hs1 : List.Sorted (· ≤ ·) (monthKeys (mo.map (fun r => r.date.month))) :=
    List.sorted_insertionSort _ _
  have hs2 : List.Sorted (· ≤ ·)
      ([1, 2, 3, 4, 5, 6, 7, 8, 9, 10, 11, 12] : List ℕ) := by
    decide
  have hkeys : monthKeys (mo.map (fun r => r.date.month)) =
      [1, 2, 3, 4, 5, 6, 7, 8, 9, 10, 11, 12] :=
    List.eq_of_perm_of_sorted hperm hs1 hs2
  have hmap : (GetMonthlyAverages mo).map (fun r => r.month) =
      monthKeys (mo.map fun r => r.date.month) := by
    rw [GetMonthlyAverages, List.map_map]
    simp [Function.comp_def]
  refine ⟨by rw [hmap, hkeys], ?_, ?_⟩
  · have := congrArg List.length (hmap.trans hkeys)
    rw [List.length_map] at this
    simpa using this
  · intro row hrow
    rw [GetMonthlyAverages] at hrow
    obtain ⟨m, hmk, rfl⟩ := List.mem_map.mp hrow
    exact ⟨rfl, rfl, rfl, rfl⟩

/-- C8 witness: `getMonthlyAverages_twelve` on a table with one row per
month. -/
theorem getMonthlyAverages_twelve_witness :
    (GetMonthlyAverages [
      ⟨⟨2000, 1, 1⟩, some 1, some 1, some 1, some 1⟩,
      ⟨⟨2000, 2, 1⟩, some 1, some 1, some 1, some 1⟩,
      ⟨⟨2000, 3, 1⟩, some 1, some 1, some 1, some 1⟩,
      ⟨⟨2000, 4, 1⟩, some 1, some 1, some 1, some 1⟩,
      ⟨⟨2000, 5, 1⟩, some 1, some 1, some 1, some 1⟩,
      ⟨⟨2000, 6, 1⟩, some 1, some 1, some 1, some 1⟩,
      ⟨⟨2000, 7, 1⟩, some 1, some 1, some 1, some 1⟩,
      ⟨⟨2000, 8, 1⟩, some 1, some 1, some 1, some 1⟩,
      ⟨⟨2000, 9, 1⟩, some 1, some 1, some 1, some 1⟩,
      ⟨⟨2000, 10, 1⟩, some 1, some 1, some 1, some 1⟩,
      ⟨⟨2000, 11, 1⟩, some 1, some 1, some 1, some 1⟩,
      ⟨⟨2000, 12, 1⟩, some 1, some 1, some 1, some 1⟩]).map
        (fun r => r.month) =
      [1, 2, 3, 4, 5, 6, 7, 8, 9, 10, 11, 12] ∧
    (GetMonthlyAverages [
      ⟨⟨2000, 1, 1⟩, some 1, some 1, some 1, some 1⟩,
      ⟨⟨2000, 2, 1⟩, some 1, some 1, some 1, some 1⟩,
      ⟨⟨2000, 3, 1⟩, some 1, some 1, some 1, some 1⟩,
      ⟨⟨2000, 4, 1⟩, some 1, some 1, some 1, some 1⟩,
      ⟨⟨2000, 5, 1⟩, some 1, some 1, some 1, some 1⟩,
      ⟨⟨2000, 6, 1⟩, some 1, some 1, some 1, some 1⟩,
      ⟨⟨2000, 7, 1⟩, some 1, some 1, some 1, some 1⟩,
      ⟨⟨2000, 8, 1⟩, some 1, some 1, some 1, some 1⟩,
      ⟨⟨2000, 9, 1⟩, some 1, some 1, some 1, some 1⟩,
      ⟨⟨2000, 10, 1⟩, some 1, some 1, some 1, some 1⟩,
      ⟨⟨2000, 11, 1⟩, some 1, some 1, some 1, some 1⟩,
      ⟨⟨2000, 12, 1⟩, some 1, some 1, some 1, some 1⟩]).length = 12 :=
  ⟨(getMonthlyAverages_twelve _ (by decide) (by decide)).1,
   (getMonthlyAverages_twelve _ (by decide) (by decide)).2.1⟩

/-- C8 counterexample: a metric table whose rows cover only one
calendar month yields one output row, not 12. -/
theorem getMonthlyAverages_single_month :
    (GetMonthlyAverages
      [⟨⟨2000, 5, 1⟩, some 1, some 1, some 1, some 1⟩]).length ≠ 12 := by
  decide
